import Mathlib

set_option maxRecDepth 100000
set_option maxHeartbeats 1600000

/-!
Shallow embedding of the go-small-jsonpath library (package `jsonpath`,
file `jsonpath.go`): the path compiler (`Compile` / `compileCore` and its
scanner primitives) and the query evaluator (`Query` and the two
zero-value accessors).

Conventions of the embedding:
* Go's index-based scanning over a `[]rune` is rendered as recursion over
  the remaining suffix (`List Char`); where the source passes an absolute
  index, the functions additionally carry the absolute position `pos`,
  because `parseNumber` inspects the absolute index (its `i == 0` test).
* Go `for` loops whose index can jump (`compileCore`'s main loop and the
  loop of `parseQuotedName`) carry a `fuel` argument counting remaining
  loop iterations.  Every iteration consumes at least one character, so
  the callers' choice `fuel = length + 1` can never be exhausted; the
  exhaustion branch is unreachable.
* Machine integers are modelled as `Nat`/`Int`; `strconv.ParseInt` with
  `bitSize = 64` is modelled including its 64-bit overflow error.
* A Go runtime panic (out-of-range slice index) is a distinct outcome
  `CompileOutcome.panic`, separate from a returned `error`.
* `unicode.IsSpace` is modelled by its Latin-1 table (the characters the
  claims exercise are ASCII); `unicode.IsControl` by its full definition
  on the Latin-1 range.
* Errors are structured values naming each `fmt.Errorf` site of the
  source instead of formatted strings.
-/

/-- Selector kinds, mirroring the `astType` constants of the source. -/
inductive astType where
  | NameIndexer
  | NumberIndexer
  | Function
deriving DecidableEq, Repr

/-- One compiled selector step, mirroring the `ast` struct: a kind tag plus
a name payload (name indexer / function) and an index payload (number
indexer). -/
structure ast where
  typ : astType
  name : String
  index : Int
deriving DecidableEq, Repr

/-- Compile-time failures, one constructor per `fmt.Errorf` site reachable
from `compileCore` and the scanner primitives. -/
inductive CompileErr where
  | rootMissing
  | unexpectedTermInBracket
  | badNumberExpression
  | integerNotParsed
  | badQuotedNameExpression
  | bracketNotClosed
  | unexpectedTermAfterDot
  | unexpectedTermInParen
  | badFunctionNameExpression
  | parenNotClosed
  | badNameExpression
  | unexpectedCharacter
  | quotedUnexpectedTermination
  | quotedBadHexEscapeLength
  | quotedCannotParseHex
  | quotedBadUnicodeEscapeLengthA
  | quotedCannotParseUnicode
  | quotedBadUnicodeEscapeLengthB
  | quotedParseIntError
  | quotedUnexpectedTermUnicodeA
  | quotedUnexpectedTermUnicodeB
  | quotedBad4DigitLengthA
  | quotedCannotParse4Digit
  | quotedBad4DigitLengthB
  | bareNameEmpty
  | numberEmpty
  | hexEmpty
deriving DecidableEq, Repr

/-- Outcome of `Compile`: a selector list, a returned `error`, or a Go
runtime panic (which `compileCore` hits on an empty path via `src[0]`). -/
inductive CompileOutcome where
  | ok (asts : List ast)
  | err (e : CompileErr)
  | panic
deriving DecidableEq, Repr

/-- Model of `unicode.IsSpace` restricted to the Latin-1 range
('\t', '\n', '\v', '\f', '\r', ' ', U+0085, U+00A0); space characters
outside Latin-1 are omitted from the model (all inputs of the claims are
ASCII). -/
def isSpaceGo (c : Char) : Bool :=
  c == ' ' || c == '\t' || c == '\n' || c.toNat == 0x0B || c.toNat == 0x0C ||
  c == '\r' || c.toNat == 0x85 || c.toNat == 0xA0

/-- Model of `unicode.IsControl` on the Latin-1 range: C0 controls, DEL,
and C1 controls. -/
def isControlGo (c : Char) : Bool :=
  c.toNat < 0x20 || c.toNat == 0x7F || (0x80 ≤ c.toNat && c.toNat ≤ 0x9F)

/-- The character test used by `skipSpaces` and `compileCore`:
`unicode.IsSpace(ch) || unicode.IsControl(ch)`. -/
def isWsChar (c : Char) : Bool :=
  isSpaceGo c || isControlGo c

/-- Embedding of `skipSpaces(src, start)`: advance past whitespace/control
characters.  Returns the new absolute position together with the remaining
suffix (the Go function returns the index; its error result is always
`nil`). -/
def skipSpaces (pos : Nat) : List Char → Nat × List Char
  | [] => (pos, [])
  | c :: rest =>
    if isWsChar c then skipSpaces (pos + 1) rest
    else (pos, c :: rest)

/-- The break condition of `parseBareName`'s loop: whitespace/control or
ASCII punctuation in the ranges `!`..`/`, `:`..`@`, `[`..backquote,
`\x7b`..`~`. -/
def bareNameStop (c : Char) : Bool :=
  isWsChar c ||
  ('!' ≤ c && c ≤ '/') || (':' ≤ c && c ≤ '@') ||
  ('[' ≤ c && c ≤ '\x60') || ('\x7b' ≤ c && c ≤ '~')

/-- The scanning loop of `parseBareName`: the maximal run of non-break
characters and the remaining suffix. -/
def bareNameRun : List Char → List Char × List Char
  | [] => ([], [])
  | c :: rest =>
    if bareNameStop c then ([], c :: rest)
    else
      let p := bareNameRun rest
      (c :: p.1, p.2)

/-- Embedding of `parseBareName(src, start)`: name, new absolute position,
remaining suffix; fails with the "Empty expression" error when nothing is
consumed. -/
def parseBareName (pos : Nat) (src : List Char) :
    Except CompileErr (String × Nat × List Char) :=
  let p := bareNameRun src
  if p.1.isEmpty then .error .bareNameEmpty
  else .ok (String.mk p.1, pos + p.1.length, p.2)

/-- The scanning loop of `parseNumber`, carrying the absolute index `i`:
as in the source, a leading `-` is only admitted when the absolute index
is `0` (the index within the whole path, not within the number).  Returns
the end index, the consumed characters and the remaining suffix. -/
def numberRun (i : Nat) : List Char → Nat × List Char × List Char
  | [] => (i, [], [])
  | c :: rest =>
    if (i == 0 && c == '-') || ('0' ≤ c && c ≤ '9') then
      let p := numberRun (i + 1) rest
      (p.1, c :: p.2.1, p.2.2)
    else (i, [], c :: rest)

/-- Embedding of `parseNumber(src, start)`: fails with "Empty expression"
when the end index equals `start`. -/
def parseNumber (start : Nat) (src : List Char) :
    Except CompileErr (Nat × List Char × List Char) :=
  let p := numberRun start src
  if p.1 == start then .error .numberEmpty
  else .ok p

/-- Hexadecimal digit test of `parseHex`. -/
def isHexDigitGo (c : Char) : Bool :=
  ('0' ≤ c && c ≤ '9') || ('A' ≤ c && c ≤ 'F') || ('a' ≤ c && c ≤ 'f')

/-- The scanning loop of `parseHex`: the maximal hex-digit run and the
remaining suffix. -/
def hexRun : List Char → List Char × List Char
  | [] => ([], [])
  | c :: rest =>
    if isHexDigitGo c then
      let p := hexRun rest
      (c :: p.1, p.2)
    else ([], c :: rest)

/-- Embedding of `parseHex(src, start)`: fails with "Empty expression"
when no hex digit is consumed. -/
def parseHex (src : List Char) : Except CompileErr (List Char × List Char) :=
  let p := hexRun src
  if p.1.isEmpty then .error .hexEmpty
  else .ok p

/-- Digit value of one character for `strconv.ParseInt`'s digit loop;
`none` when the character is not a digit of the base. -/
def digitValGo (base : Nat) (c : Char) : Option Nat :=
  let v : Nat :=
    if '0' ≤ c && c ≤ '9' then c.toNat - '0'.toNat
    else if 'a' ≤ c && c ≤ 'z' then c.toNat - 'a'.toNat + 10
    else if 'A' ≤ c && c ≤ 'Z' then c.toNat - 'A'.toNat + 10
    else base
  if v < base then some v else none

/-- Accumulating digit loop of `strconv.ParseUint`. -/
def parseDigitsGoAux (base : Nat) (acc : Nat) : List Char → Option Nat
  | [] => some acc
  | c :: rest =>
    match digitValGo base c with
    | none => none
    | some v => parseDigitsGoAux base (acc * base + v) rest

/-- Model of `strconv.ParseInt(s, base, 64)` on a rune slice: optional
sign, at least one digit, 64-bit bounds; `none` models a returned
error. -/
def parseIntGo (base : Nat) (s : List Char) : Option Int :=
  match s with
  | [] => none
  | '+' :: rest =>
    match rest with
    | [] => none
    | _ =>
      match parseDigitsGoAux base 0 rest with
      | none => none
      | some n => if n ≤ 9223372036854775807 then some (n : Int) else none
  | '-' :: rest =>
    match rest with
    | [] => none
    | _ =>
      match parseDigitsGoAux base 0 rest with
      | none => none
      | some n => if n ≤ 9223372036854775808 then some (-(n : Int)) else none
  | _ =>
    match parseDigitsGoAux base 0 s with
    | none => none
    | some n => if n ≤ 9223372036854775807 then some (n : Int) else none

/-- Model of appending `rune(v)` to the rune buffer that is later passed
through `string(buf)`: a valid Unicode scalar value keeps its code point,
anything else becomes U+FFFD (as Go's `[]rune`-to-`string` conversion
produces). -/
def runeToChar (v : Int) : Char :=
  if v < 0 then '�'
  else if h : v.toNat.isValidChar then Char.ofNatAux v.toNat h
  else '�'

/-- The set of escape-introducer characters handled by the `switch` in
`parseQuotedName` (the source switch has no `default` case). -/
def escIntroducer (d : Char) : Bool :=
  d == '\\' || d == '"' || d == '\x27' || d == '\x60' ||
  d == 'n' || d == 'N' || d == 'r' || d == 'R' || d == 'v' || d == 'V' ||
  d == 't' || d == 'T' || d == 'b' || d == 'B' || d == 'f' || d == 'F' ||
  d == 'x' || d == 'X' || d == 'u' || d == 'U'

/-- Embedding of the scanning loop of `parseQuotedName(src, cc, start)`.
`fuel` counts remaining loop iterations (each iteration consumes at least
one character, so the wrapper's `fuel = length + 1` is never exhausted).
Returns the decoded rune buffer, the absolute position just past the
closing quote, and the remaining suffix.  Faithful quirks of the source:
the escape `switch` has no `default`, so an unlisted introducer makes the
iteration append nothing and leave the introducer to be scanned as an
ordinary character; hex/unicode escape forms check their exact lengths and
reject malformed or over-long digit runs. -/
def parseQuotedNameAux : Nat → Char → Nat → List Char →
    Except CompileErr (List Char × Nat × List Char)
  | 0, _, _, _ => .error .quotedUnexpectedTermination
  | _ + 1, _, _, [] => .error .quotedUnexpectedTermination
  | fuel + 1, cc, pos, ch :: rest =>
    if ch == cc then .ok ([], pos + 1, rest)
    else if ch == '\\' then
      match rest with
      | [] => .error .quotedUnexpectedTermination
      | d :: rest2 =>
        if d == '\\' || d == '"' || d == '\x27' || d == '\x60' then
          match parseQuotedNameAux fuel cc (pos + 2) rest2 with
          | .error e => .error e
          | .ok (buf, p, r) => .ok (d :: buf, p, r)
        else if d == 'n' || d == 'N' then
          match parseQuotedNameAux fuel cc (pos + 2) rest2 with
          | .error e => .error e
          | .ok (buf, p, r) => .ok ('\n' :: buf, p, r)
        else if d == 'r' || d == 'R' then
          match parseQuotedNameAux fuel cc (pos + 2) rest2 with
          | .error e => .error e
          | .ok (buf, p, r) => .ok ('\r' :: buf, p, r)
        else if d == 'v' || d == 'V' then
          match parseQuotedNameAux fuel cc (pos + 2) rest2 with
          | .error e => .error e
          | .ok (buf, p, r) => .ok ('\x0B' :: buf, p, r)
        else if d == 't' || d == 'T' then
          match parseQuotedNameAux fuel cc (pos + 2) rest2 with
          | .error e => .error e
          | .ok (buf, p, r) => .ok ('\t' :: buf, p, r)
        else if d == 'b' || d == 'B' then
          match parseQuotedNameAux fuel cc (pos + 2) rest2 with
          | .error e => .error e
          | .ok (buf, p, r) => .ok ('\x08' :: buf, p, r)
        else if d == 'f' || d == 'F' then
          match parseQuotedNameAux fuel cc (pos + 2) rest2 with
          | .error e => .error e
          | .ok (buf, p, r) => .ok ('\x0C' :: buf, p, r)
        else if d == 'x' || d == 'X' then
          match rest2 with
          | h1 :: h2 :: rest3 =>
            match parseIntGo 16 [h1, h2] with
            | none => .error .quotedCannotParseHex
            | some v =>
              match parseQuotedNameAux fuel cc (pos + 4) rest3 with
              | .error e => .error e
              | .ok (buf, p, r) => .ok (runeToChar v :: buf, p, r)
          | _ => .error .quotedBadHexEscapeLength
        else if d == 'u' || d == 'U' then
          match rest2 with
          | [] => .error .quotedBadUnicodeEscapeLengthA
          | e1 :: rest3 =>
            if e1 == '\x7b' then
              match parseHex rest3 with
              | .error _ => .error .quotedCannotParseUnicode
              | .ok (ds, rest4) =>
                if ds.length > 6 then .error .quotedBadUnicodeEscapeLengthB
                else
                  match parseIntGo 16 ds with
                  | none => .error .quotedParseIntError
                  | some v =>
                    match rest4 with
                    | [] => .error .quotedUnexpectedTermUnicodeA
                    | f1 :: rest5 =>
                      if f1 == '\x7d' then
                        match parseQuotedNameAux fuel cc (pos + 4 + ds.length) rest5 with
                        | .error e => .error e
                        | .ok (buf, p, r) => .ok (runeToChar v :: buf, p, r)
                      else .error .quotedUnexpectedTermUnicodeB
            else
              if rest2.length < 4 then .error .quotedBad4DigitLengthA
              else
                match parseHex rest2 with
                | .error _ => .error .quotedCannotParse4Digit
                | .ok (ds, rest4) =>
                  if ds.length ≠ 4 then .error .quotedBad4DigitLengthB
                  else
                    match parseIntGo 16 ds with
                    | none => .error .quotedParseIntError
                    | some v =>
                      match parseQuotedNameAux fuel cc (pos + 6) rest4 with
                      | .error e => .error e
                      | .ok (buf, p, r) => .ok (runeToChar v :: buf, p, r)
        else
          parseQuotedNameAux fuel cc (pos + 1) (d :: rest2)
    else
      match parseQuotedNameAux fuel cc (pos + 1) rest with
      | .error e => .error e
      | .ok (buf, p, r) => .ok (ch :: buf, p, r)

/-- Embedding of `parseQuotedName(src, cc, start)`: decoded name, absolute
position past the closing quote, remaining suffix. -/
def parseQuotedName (cc : Char) (pos : Nat) (src : List Char) :
    Except CompileErr (String × Nat × List Char) :=
  match parseQuotedNameAux (src.length + 1) cc pos src with
  | .error e => .error e
  | .ok (buf, p, r) => .ok (String.mk buf, p, r)

/-- Embedding of the main loop of `compileCore` (the `for` loop starting
at index 1).  `fuel` counts remaining loop iterations; every iteration
consumes at least one character, so the caller's `fuel = length + 1` is
never exhausted (the `fuel = 0` branch is unreachable).  `pos` is the
absolute index of the head of `src` within the whole path. -/
def compileLoop : Nat → Nat → List Char → List ast → CompileOutcome
  | 0, _, _, _ => .panic
  | _ + 1, _, [], asts => .ok asts
  | fuel + 1, pos, ch :: rest, asts =>
    if isWsChar ch then
      let p := skipSpaces (pos + 1) rest
      compileLoop fuel p.1 p.2 asts
    else if ch == '[' then
      let p := skipSpaces (pos + 1) rest
      match p.2 with
      | [] => .err .unexpectedTermInBracket
      | c1 :: r1 =>
        if ('0' ≤ c1 && c1 ≤ '9') || c1 == '-' then
          match parseNumber p.1 (c1 :: r1) with
          | .error _ => .err .badNumberExpression
          | .ok (endPos, digits, r2) =>
            match parseIntGo 10 digits with
            | none => .err .integerNotParsed
            | some num =>
              let q := skipSpaces endPos r2
              match q.2 with
              | [] => .err .unexpectedTermInBracket
              | c2 :: r3 =>
                if c2 == ']' then
                  compileLoop fuel (q.1 + 1) r3 (asts ++ [⟨.NumberIndexer, "", num⟩])
                else .err .bracketNotClosed
        else if c1 == '\x27' || c1 == '"' then
          match parseQuotedName c1 (p.1 + 1) r1 with
          | .error _ => .err .badQuotedNameExpression
          | .ok (name, p2, r2) =>
            let q := skipSpaces p2 r2
            match q.2 with
            | [] => .err .unexpectedTermInBracket
            | c2 :: r3 =>
              if c2 == ']' then
                compileLoop fuel (q.1 + 1) r3 (asts ++ [⟨.NameIndexer, name, 0⟩])
              else .err .bracketNotClosed
        else .err .badQuotedNameExpression
    else if ch == '.' then
      let p := skipSpaces (pos + 1) rest
      match p.2 with
      | [] => .err .unexpectedTermAfterDot
      | c1 :: r1 =>
        if c1 == '(' then
          let q := skipSpaces (p.1 + 1) r1
          match parseBareName q.1 q.2 with
          | .error _ => .err .badFunctionNameExpression
          | .ok (name, p2, r2) =>
            let w := skipSpaces p2 r2
            match w.2 with
            | [] => .err .unexpectedTermInParen
            | c2 :: r3 =>
              if c2 == ')' then
                compileLoop fuel (w.1 + 1) r3 (asts ++ [⟨.Function, name, 0⟩])
              else .err .parenNotClosed
        else
          match parseBareName p.1 (c1 :: r1) with
          | .error _ => .err .badNameExpression
          | .ok (name, p2, r2) =>
            let q := skipSpaces p2 r2
            compileLoop fuel q.1 q.2 (asts ++ [⟨.NameIndexer, name, 0⟩])
    else .err .unexpectedCharacter

/-- Embedding of `compileCore(src, root)`: on an empty rune slice the
source dereferences `src[0]` and panics; otherwise it requires the root
marker and runs the main loop from index 1. -/
def compileCore (src : List Char) (root : Char) : CompileOutcome :=
  match src with
  | [] => .panic
  | c :: rest =>
    if c != root then .err .rootMissing
    else compileLoop (rest.length + 1) 1 rest []

/-- Embedding of `Compile(path)`. -/
def Compile (path : String) : CompileOutcome :=
  compileCore path.data '$'

/-- The `JSONValueType` enumeration of the source. -/
inductive JSONValueType where
  | Type_Invalid
  | Type_Null
  | Type_Number
  | Type_String
  | Type_Object
  | Type_Array
deriving DecidableEq, Repr

/-- Dynamic values flowing through the evaluator, mirroring the Go
`interface{}` cases it distinguishes: `nil`, `float64` (payload modelled
as `Int`; the evaluator never computes with it), Go `int` (produced only
by the `length` operand — a distinct dynamic type from `float64`),
`string`, `map[string]interface{}` and `[]interface{}`. -/
inductive GoValue where
  | null
  | num (x : Int)
  | int (n : Nat)
  | str (s : String)
  | obj (fields : List (String × GoValue))
  | arr (elems : List GoValue)

/-- The `parsedJSON` struct: type tag plus root value (`value = nil` is
`GoValue.null`). -/
structure parsedJSON where
  typ : JSONValueType
  value : GoValue

/-- Traversal failures, one constructor per `fmt.Errorf` site of `Query`,
each carrying the data the source formats into the message. -/
inductive QueryErr where
  | jsonNotRead
  | nilReferenced (level : Nat)
  | propertyNotExist (name : String) (level : Nat)
  | objectByNumber (level : Nat) (index : Int)
  | objectByFunction (level : Nat) (name : String)
  | arrayByName (level : Nat) (name : String)
  | indexOutOfRange (level : Nat) (length : Nat) (index : Int)
  | indexOutOfRangeFirst (level : Nat) (length : Nat)
  | indexOutOfRangeLast (level : Nat) (length : Nat)
  | undefinedFunction (level : Nat) (name : String)
  | unexpectedDataType (level : Nat)
deriving DecidableEq, Repr

/-- Lookup in the model of `map[string]interface{}` (keys are unique in a
decoded object, so first-match lookup is the map semantics). -/
def lookupField : List (String × GoValue) → String → Option GoValue
  | [], _ => none
  | (k, v) :: rest, name => if k == name then some v else lookupField rest name

/-- One iteration of `Query`'s loop at step `a`, level `i`, current value
`v`: the `v == nil` guard followed by the type switch of the source. -/
def queryStep (a : ast) (i : Nat) (v : GoValue) : Except QueryErr GoValue :=
  match v with
  | .null => .error (.nilReferenced i)
  | .obj fields =>
    match a.typ with
    | .NameIndexer =>
      match lookupField fields a.name with
      | none => .error (.propertyNotExist a.name i)
      | some v2 => .ok v2
    | .NumberIndexer => .error (.objectByNumber i a.index)
    | .Function => .error (.objectByFunction i a.name)
  | .arr elems =>
    match a.typ with
    | .NameIndexer => .error (.arrayByName i a.name)
    | .NumberIndexer =>
      let len : Int := elems.length
      let idx : Int := if a.index < 0 then len - a.index else a.index
      if len ≤ idx then .error (.indexOutOfRange i elems.length a.index)
      else .ok (elems.getD idx.toNat .null)
    | .Function =>
      if a.name == "length" then .ok (.int elems.length)
      else if a.name == "first" then
        if elems.length == 0 then .error (.indexOutOfRangeFirst i elems.length)
        else .ok (elems.getD 0 .null)
      else if a.name == "last" then
        if elems.length == 0 then .error (.indexOutOfRangeLast i elems.length)
        else .ok (elems.getD (elems.length - 1) .null)
      else .error (.undefinedFunction i a.name)
  | _ => .error (.unexpectedDataType i)

/-- The `for i, a := range p.asts` loop of `Query`. -/
def queryLoop : List ast → Nat → GoValue → Except QueryErr GoValue
  | [], _, v => .ok v
  | a :: rest, i, v =>
    match queryStep a i v with
    | .error e => .error e
    | .ok w => queryLoop rest (i + 1) w

/-- Embedding of `(*CompiledJSONPath).Query`. -/
def Query (p : List ast) (pjson : parsedJSON) : Except QueryErr GoValue :=
  if pjson.typ = .Type_Invalid then .error .jsonNotRead
  else queryLoop p 0 pjson.value

/-- Embedding of `QueryAsStringOrZero`: swallow any failure, then the
`v.(string)` type assertion with `""` as fallback. -/
def QueryAsStringOrZero (p : List ast) (pjson : parsedJSON) : String :=
  match Query p pjson with
  | .error _ => ""
  | .ok v =>
    match v with
    | .str s => s
    | _ => ""

/-- Embedding of `QueryAsNumberOrZero`: swallow any failure, then the
`v.(float64)` type assertion with `0` as fallback (a Go `int` result,
`GoValue.int`, does not pass the assertion). -/
def QueryAsNumberOrZero (p : List ast) (pjson : parsedJSON) : Int :=
  match Query p pjson with
  | .error _ => 0
  | .ok v =>
    match v with
    | .num x => x
    | _ => 0

/-!
### Rendering of paths with explicit whitespace

To state whitespace insensitivity, a path is described abstractly as a
sequence of selectors, each carrying the whitespace runs chosen at the
token boundaries of its concrete rendering.  Compiling any rendering of a
well-formed description yields the description's selector steps, whatever
whitespace was chosen.
-/

/-- Predicate: every character of the run is whitespace/control in the
scanner's sense. -/
@[reducible] def WsRun (l : List Char) : Prop := ∀ c ∈ l, isWsChar c = true

/-- Value of a decimal digit run. -/
def digitsVal (l : List Char) : Nat :=
  l.foldl (fun a c => a * 10 + (c.toNat - '0'.toNat)) 0

/-- One selector of a path description, carrying the whitespace runs of
its rendering: `dotName w1 s` renders as `.`, `w1`, then the bare name
`s`; `brQuoted w1 q s w2` as `[`, `w1`, the `q`-quoted name `s`, `w2`,
`]`; `brNum w1 ds w2` as `[`, `w1`, the digit run `ds`, `w2`, `]`;
`fnOp w1 w2 s w3` as `.`, `w1`, `(`, `w2`, the name `s`, `w3`, `)`. -/
inductive RSel where
  | dotName (w1 : List Char) (s : List Char)
  | brQuoted (w1 : List Char) (q : Char) (s : List Char) (w2 : List Char)
  | brNum (w1 : List Char) (ds : List Char) (w2 : List Char)
  | fnOp (w1 w2 : List Char) (s : List Char) (w3 : List Char)

/-- Concrete text of one selector. -/
def renderSel : RSel → List Char
  | .dotName w1 s => '.' :: (w1 ++ s)
  | .brQuoted w1 q s w2 => '[' :: (w1 ++ q :: (s ++ q :: (w2 ++ [']'])))
  | .brNum w1 ds w2 => '[' :: (w1 ++ (ds ++ (w2 ++ [']'])))
  | .fnOp w1 w2 s w3 => '.' :: (w1 ++ '(' :: (w2 ++ (s ++ (w3 ++ [')']))))

/-- Concrete text of a selector sequence; each selector is followed by
its chosen whitespace run. -/
def renderSels : List (RSel × List Char) → List Char
  | [] => []
  | (r, w) :: rest => renderSel r ++ (w ++ renderSels rest)

/-- Concrete text of a whole path: the root marker, a whitespace run
after it, then the selectors. -/
def renderPath (w0 : List Char) (sels : List (RSel × List Char)) : List Char :=
  '$' :: (w0 ++ renderSels sels)

/-- Well-formedness of one selector description: whitespace slots hold
only whitespace/control characters, names are nonempty and use admissible
characters, quoted content is escape- and quote-free (so it is taken
literally), digit runs are nonempty and within the 64-bit parse bound. -/
def WFSel : RSel → Prop
  | .dotName w1 s => WsRun w1 ∧ s ≠ [] ∧ ∀ c ∈ s, bareNameStop c = false
  | .brQuoted w1 q s w2 => WsRun w1 ∧ WsRun w2 ∧ (q = '\x27' ∨ q = '"') ∧
      ∀ c ∈ s, c ≠ q ∧ c ≠ '\\'
  | .brNum w1 ds w2 => WsRun w1 ∧ WsRun w2 ∧ ds ≠ [] ∧
      (∀ c ∈ ds, 48 ≤ c.toNat ∧ c.toNat ≤ 57) ∧
      digitsVal ds ≤ 9223372036854775807
  | .fnOp w1 w2 s w3 => WsRun w1 ∧ WsRun w2 ∧ WsRun w3 ∧ s ≠ [] ∧
      ∀ c ∈ s, bareNameStop c = false

/-- The selector step denoted by a selector description (independent of
every whitespace slot). -/
def denoteSel : RSel → ast
  | .dotName _ s => ⟨.NameIndexer, String.mk s, 0⟩
  | .brQuoted _ _ s _ => ⟨.NameIndexer, String.mk s, 0⟩
  | .brNum _ ds _ => ⟨.NumberIndexer, "", (digitsVal ds : Int)⟩
  | .fnOp _ _ s _ => ⟨.Function, String.mk s, 0⟩

/-- Head condition: the list is empty or starts with a character the
whitespace skipper does not consume. -/
def HeadNotWs : List Char → Prop
  | [] => True
  | c :: _ => isWsChar c = false

/-- Head condition: the list is empty or starts with a character that
terminates a bare name. -/
def HeadStop : List Char → Prop
  | [] => True
  | c :: _ => bareNameStop c = true

/-- Head condition: the list is empty or starts with a character that is
not a decimal digit. -/
def HeadNotDigit : List Char → Prop
  | [] => True
  | c :: _ => ¬(48 ≤ c.toNat ∧ c.toNat ≤ 57)

/-! ### Helper lemmas about the evaluator -/

/-- Splitting `Query`'s loop at a list append: the levels of the second
part continue where the first part stopped. -/
theorem queryLoop_append (l₁ l₂ : List ast) (i : Nat) (v : GoValue) :
    queryLoop (l₁ ++ l₂) i v =
      match queryLoop l₁ i v with
      | .error e => .error e
      | .ok w => queryLoop l₂ (i + l₁.length) w := by
  induction l₁ generalizing i v with
  | nil => simp [queryLoop]
  | cons a rest ih =>
    cases h : queryStep a i v with
    | error e => simp [queryLoop, h]
    | ok w =>
      simp only [List.cons_append, queryLoop, h, List.length_cons, List.append_eq]
      rw [ih]
      have h2 : i + 1 + rest.length = i + (rest.length + 1) := by omega
      rw [h2]

/-! ### Claims -/

/-- C2: the decimal-run scanner is documented (and specified) to consume
an optional leading minus, so `[-N]` should compile into a negative
`NumberIndexer`.  The code's `parseNumber` admits `-` only at absolute
index 0 of the whole path (a dead condition, since scanning starts after
the root marker), so `$[-1]` is rejected with the "Bad number expression"
failure while `$[1]` compiles; this contradicts the README's documented
`foo[-1]` feature. -/
theorem C2_negative_index_rejected_at_compile :
    Compile "$[-1]" = .err .badNumberExpression ∧
    Compile "$[1]" = .ok [⟨.NumberIndexer, "", 1⟩] :=
  ⟨rfl, rfl⟩

/-- C3: compiling the empty path does not return an error value; the
source dereferences `src[0]` on an empty rune slice and panics at
run time. -/
theorem C3_compile_empty_panics :
    Compile "" = .panic :=
  rfl

/-- C4: for every array and every negative numeric index, the evaluator's
remapped index `length - index` is at least `length + 1`, so the step
(at any level, with any following steps, and through `Query`) always
fails with the "index out of range" error and never yields an element. -/
theorem C4_negative_index_always_out_of_range (elems : List GoValue)
    (rest : List ast) (lvl : Nat) (n : Int) (h : n < 0) :
    queryStep ⟨.NumberIndexer, "", n⟩ lvl (.arr elems) =
      .error (.indexOutOfRange lvl elems.length n) ∧
    queryLoop (⟨.NumberIndexer, "", n⟩ :: rest) lvl (.arr elems) =
      .error (.indexOutOfRange lvl elems.length n) ∧
    ((elems.length : Int) + 1 ≤ (elems.length : Int) - n) ∧
    (∀ pj : parsedJSON, pj.typ ≠ .Type_Invalid → pj.value = .arr elems →
      Query (⟨.NumberIndexer, "", n⟩ :: rest) pj =
        .error (.indexOutOfRange 0 elems.length n)) := by
  have hstep : ∀ l : Nat, queryStep ⟨.NumberIndexer, "", n⟩ l (.arr elems) =
      .error (.indexOutOfRange l elems.length n) := by
    intro l
    simp only [queryStep]
    rw [if_pos h, if_pos (by omega)]
  refine ⟨hstep lvl, ?_, by omega, ?_⟩
  · simp [queryLoop, hstep lvl]
  · intro pj htyp hval
    simp [Query, htyp, hval, queryLoop, hstep 0]

/-- Witness for C4 at a one-element array and index `-1`. -/
theorem C4_witness :
    queryStep ⟨.NumberIndexer, "", -1⟩ 0 (.arr [.num 5]) =
      .error (.indexOutOfRange 0 1 (-1)) ∧
    Query [⟨.NumberIndexer, "", -1⟩] ⟨.Type_Array, .arr [.num 5]⟩ =
      .error (.indexOutOfRange 0 1 (-1)) := by
  have h := C4_negative_index_always_out_of_range [.num 5] [] 0 (-1) (by omega)
  exact ⟨h.1, h.2.2.2 ⟨.Type_Array, .arr [.num 5]⟩ (by decide) rfl⟩

/-- C5: the four spellings of the property name `abc` — plain, `\xHH`
byte escapes, `\uHHHH` escapes, and `\u{H..H}` escapes of different
digit counts — all compile to the identical single `NameIndexer "abc"`
step. -/
theorem C5_escape_decoding_equivalence :
    Compile "$[\"abc\"]" = .ok [⟨.NameIndexer, "abc", 0⟩] ∧
    Compile "$[\"\\x61\\x62\\x63\"]" = .ok [⟨.NameIndexer, "abc", 0⟩] ∧
    Compile "$[\"\\u0061\\u0062\\u0063\"]" = .ok [⟨.NameIndexer, "abc", 0⟩] ∧
    Compile "$[\"\\u\x7b61\x7d\\u\x7b062\x7d\\u\x7b0063\x7d\"]" =
      .ok [⟨.NameIndexer, "abc", 0⟩] :=
  ⟨rfl, rfl, rfl, rfl⟩

/-- C6: a compiled path with zero steps evaluates to the root value
unchanged, for every readable document (any type tag other than
`Type_Invalid`), including null, bare strings and bare numbers. -/
theorem C6_empty_path_returns_root (pj : parsedJSON)
    (h : pj.typ ≠ .Type_Invalid) :
    Query [] pj = .ok pj.value := by
  simp [Query, queryLoop, h]

/-- Witness for C6 at the three scalar documents of the spec's example. -/
theorem C6_witness :
    Query [] ⟨.Type_Null, .null⟩ = .ok .null ∧
    Query [] ⟨.Type_String, .str "a"⟩ = .ok (.str "a") ∧
    Query [] ⟨.Type_Number, .num 7⟩ = .ok (.num 7) :=
  ⟨C6_empty_path_returns_root _ (by decide),
   C6_empty_path_returns_root _ (by decide),
   C6_empty_path_returns_root _ (by decide)⟩

/-- C7: the accessors never fail — they return the query result exactly
when its variant matches the requested type and the zero value otherwise
(including when `Query` itself fails); concretely, `$.c` against
`{"a":{"b":1}}` is a failing query on which the accessors return `0`
and `""`. -/
theorem C7_accessor_contract :
    (∀ p pj s, Query p pj = .ok (.str s) → QueryAsStringOrZero p pj = s) ∧
    (∀ p pj, (∀ s, Query p pj ≠ .ok (.str s)) → QueryAsStringOrZero p pj = "") ∧
    (∀ p pj x, Query p pj = .ok (.num x) → QueryAsNumberOrZero p pj = x) ∧
    (∀ p pj, (∀ x, Query p pj ≠ .ok (.num x)) → QueryAsNumberOrZero p pj = 0) ∧
    (Compile "$.c" = .ok [⟨.NameIndexer, "c", 0⟩] ∧
     Query [⟨.NameIndexer, "c", 0⟩] ⟨.Type_Object, .obj [("a", .obj [("b", .num 1)])]⟩ =
       .error (.propertyNotExist "c" 0) ∧
     QueryAsNumberOrZero [⟨.NameIndexer, "c", 0⟩]
       ⟨.Type_Object, .obj [("a", .obj [("b", .num 1)])]⟩ = 0 ∧
     QueryAsStringOrZero [⟨.NameIndexer, "c", 0⟩]
       ⟨.Type_Object, .obj [("a", .obj [("b", .num 1)])]⟩ = "") := by
  refine ⟨?_, ?_, ?_, ?_, rfl, rfl, rfl, rfl⟩
  · intro p pj s h
    simp [QueryAsStringOrZero, h]
  · intro p pj h
    unfold QueryAsStringOrZero
    cases hq : Query p pj with
    | error e => rfl
    | ok v =>
      cases v with
      | str s => exact absurd hq (h s)
      | null => rfl
      | num x => rfl
      | int n => rfl
      | obj fields => rfl
      | arr elems => rfl
  · intro p pj x h
    simp [QueryAsNumberOrZero, h]
  · intro p pj h
    unfold QueryAsNumberOrZero
    cases hq : Query p pj with
    | error e => rfl
    | ok v =>
      cases v with
      | num x => exact absurd hq (h x)
      | null => rfl
      | str s => rfl
      | int n => rfl
      | obj fields => rfl
      | arr elems => rfl

/-- Witness for C7: the matching and non-matching accessor cases at
concrete documents. -/
theorem C7_witness :
    QueryAsStringOrZero [] ⟨.Type_String, .str "a"⟩ = "a" ∧
    QueryAsNumberOrZero [] ⟨.Type_Number, .num 7⟩ = 7 ∧
    QueryAsStringOrZero [] ⟨.Type_Number, .num 7⟩ = "" ∧
    QueryAsNumberOrZero [] ⟨.Type_String, .str "a"⟩ = 0 :=
  ⟨C7_accessor_contract.1 _ _ _ rfl,
   C7_accessor_contract.2.2.1 _ _ _ rfl,
   C7_accessor_contract.2.1 _ _ (fun s h => by simp [Query, queryLoop] at h),
   C7_accessor_contract.2.2.2.1 _ _ (fun x h => by simp [Query, queryLoop] at h)⟩

/-- C8: against an empty array (at any level, and through `Query`), the
`first` and `last` operands fail with the out-of-range condition while
`length` succeeds with the integer `0`. -/
theorem C8_empty_array_first_last_length (lvl : Nat) :
    queryStep ⟨.Function, "first", 0⟩ lvl (.arr []) =
      .error (.indexOutOfRangeFirst lvl 0) ∧
    queryStep ⟨.Function, "last", 0⟩ lvl (.arr []) =
      .error (.indexOutOfRangeLast lvl 0) ∧
    queryStep ⟨.Function, "length", 0⟩ lvl (.arr []) = .ok (.int 0) ∧
    Query [⟨.Function, "first", 0⟩] ⟨.Type_Array, .arr []⟩ =
      .error (.indexOutOfRangeFirst 0 0) ∧
    Query [⟨.Function, "last", 0⟩] ⟨.Type_Array, .arr []⟩ =
      .error (.indexOutOfRangeLast 0 0) ∧
    Query [⟨.Function, "length", 0⟩] ⟨.Type_Array, .arr []⟩ = .ok (.int 0) :=
  ⟨rfl, rfl, rfl, rfl, rfl, rfl⟩

/-- C10: a successful `length` operand produces a Go `int`, which is a
different dynamic type from the `float64` a JSON number decodes to; hence
whenever a path prefix reaches an array, extending it with the `length`
operand makes `Query` succeed with that integer while
`QueryAsNumberOrZero` returns `0` (the `float64` type assertion fails). -/
theorem C10_length_int_defeats_number_accessor (p : List ast)
    (pj : parsedJSON) (elems : List GoValue)
    (h : Query p pj = .ok (.arr elems)) :
    Query (p ++ [⟨.Function, "length", 0⟩]) pj = .ok (.int elems.length) ∧
    QueryAsNumberOrZero (p ++ [⟨.Function, "length", 0⟩]) pj = 0 ∧
    (∀ x : Int, (GoValue.int elems.length) ≠ .num x) := by
  have htyp : pj.typ ≠ .Type_Invalid := by
    intro hT
    simp [Query, hT] at h
  have h2 : queryLoop p 0 pj.value = .ok (.arr elems) := by
    rw [Query, if_neg htyp] at h
    exact h
  have hq : Query (p ++ [⟨.Function, "length", 0⟩]) pj = .ok (.int elems.length) := by
    rw [Query, if_neg htyp, queryLoop_append, h2]
    simp [queryLoop, queryStep]
  refine ⟨hq, by simp [QueryAsNumberOrZero, hq], fun x hx => by cases hx⟩

/-- Witness for C10: the document `{"test":[{"abc":1},{"abc":10}]}` with
path `$.test.(length)`: `Query` returns the integer 2 but the number
accessor returns 0. -/
theorem C10_witness :
    Query [⟨.NameIndexer, "test", 0⟩, ⟨.Function, "length", 0⟩]
      ⟨.Type_Object, .obj [("test", .arr [.obj [("abc", .num 1)], .obj [("abc", .num 10)]])]⟩ =
      .ok (.int 2) ∧
    QueryAsNumberOrZero [⟨.NameIndexer, "test", 0⟩, ⟨.Function, "length", 0⟩]
      ⟨.Type_Object, .obj [("test", .arr [.obj [("abc", .num 1)], .obj [("abc", .num 10)]])]⟩ = 0 := by
  have h := C10_length_int_defeats_number_accessor [⟨.NameIndexer, "test", 0⟩]
    ⟨.Type_Object, .obj [("test", .arr [.obj [("abc", .num 1)], .obj [("abc", .num 10)]])]⟩
    [.obj [("abc", .num 1)], .obj [("abc", .num 10)]] rfl
  exact ⟨h.1, h.2.1⟩

/-- C1 counterexample: the escape `\z` uses an introducer outside the
documented table, yet `Compile` succeeds — the `switch` in
`parseQuotedName` has no `default` case, so the backslash is silently
dropped and `z` is kept as a literal, contradicting the claim that any
such escape is a compile-time failure. -/
theorem C1_counterexample_unknown_escape_compiles :
    Compile "$[\"a\\zb\"]" = .ok [⟨.NameIndexer, "azb", 0⟩] :=
  rfl

/-- C1 (amended): inside a quoted name, a backslash escape whose
introducer is not in the table is not a failure: the iteration consumes
only the backslash, appends nothing, and rescans the introducer as an
ordinary character; malformed or over-length hex runs in the `\x`,
`\uHHHH` and `\u{H..H}` forms do cause compile-time failures. -/
theorem C1_amended_unknown_escape_skipped (f : Nat) (cc : Char) (pos : Nat)
    (d : Char) (rest : List Char)
    (hcc : cc = '\x27' ∨ cc = '"') (hd : escIntroducer d = false) :
    parseQuotedNameAux (f + 1) cc pos ('\\' :: d :: rest) =
      parseQuotedNameAux f cc (pos + 1) (d :: rest) ∧
    Compile "$[\"\\xZ1\"]" = .err .badQuotedNameExpression ∧
    Compile "$[\"\\x1\"]" = .err .badQuotedNameExpression ∧
    Compile "$[\"\\u123\"]" = .err .badQuotedNameExpression ∧
    Compile "$[\"\\u12345\"]" = .err .badQuotedNameExpression ∧
    Compile "$[\"\\u\x7bZ1\x7d\"]" = .err .badQuotedNameExpression ∧
    Compile "$[\"\\u\x7b1234567\x7d\"]" = .err .badQuotedNameExpression := by
  refine ⟨?_, rfl, rfl, rfl, rfl, rfl, rfl⟩
  have hne : ('\\' == cc) = false := by
    rcases hcc with h | h <;> subst h <;> rfl
  have h20 : (d == '\\') = false ∧ (d == '"') = false ∧ (d == '\x27') = false ∧
      (d == '\x60') = false ∧ (d == 'n') = false ∧ (d == 'N') = false ∧
      (d == 'r') = false ∧ (d == 'R') = false ∧ (d == 'v') = false ∧
      (d == 'V') = false ∧ (d == 't') = false ∧ (d == 'T') = false ∧
      (d == 'b') = false ∧ (d == 'B') = false ∧ (d == 'f') = false ∧
      (d == 'F') = false ∧ (d == 'x') = false ∧ (d == 'X') = false ∧
      (d == 'u') = false ∧ (d == 'U') = false := by
    simp only [escIntroducer, Bool.or_eq_false_iff] at hd
    tauto
  obtain ⟨e1, e2, e3, e4, e5, e6, e7, e8, e9, e10, e11, e12, e13, e14, e15,
    e16, e17, e18, e19, e20⟩ := h20
  simp [parseQuotedNameAux, hne, e1, e2, e3, e4, e5, e6, e7, e8, e9, e10,
    e11, e12, e13, e14, e15, e16, e17, e18, e19, e20]

/-- Witness for C1 (amended) at `cc = '"'`, introducer `z`. -/
theorem C1_witness :
    parseQuotedNameAux 3 '"' 0 ('\\' :: 'z' :: ['"']) =
      parseQuotedNameAux 2 '"' 1 ('z' :: ['"']) ∧
    Compile "$[\"\\xZ1\"]" = .err .badQuotedNameExpression :=
  ⟨(C1_amended_unknown_escape_skipped 2 '"' 0 'z' ['"'] (Or.inr rfl) rfl).1,
   (C1_amended_unknown_escape_skipped 2 '"' 0 'z' ['"'] (Or.inr rfl) rfl).2.1⟩

/-- Skipping whitespace stops exactly at the first non-whitespace head. -/
theorem skipSpaces_ws_append (w l : List Char) (pos : Nat)
    (hw : WsRun w) (hl : HeadNotWs l) :
    skipSpaces pos (w ++ l) = (pos + w.length, l) := by
  induction w generalizing pos with
  | nil =>
    cases l with
    | nil => rfl
    | cons c cs => simp [skipSpaces, HeadNotWs] at hl ⊢; simp [hl]
  | cons c w' ih =>
    have hc : isWsChar c = true := hw c (by simp)
    have hw' : WsRun w' := fun x hx => hw x (by simp [hx])
    simp only [List.cons_append, skipSpaces, hc, if_true, List.append_eq]
    rw [ih (pos + 1) hw']
    simp
    omega

/-- The bare-name scanner consumes exactly an admissible run up to a
stopping head. -/
theorem bareNameRun_append (s l : List Char)
    (hs : ∀ c ∈ s, bareNameStop c = false) (hl : HeadStop l) :
    bareNameRun (s ++ l) = (s, l) := by
  induction s with
  | nil =>
    cases l with
    | nil => rfl
    | cons c cs =>
      simp only [HeadStop] at hl
      simp [bareNameRun, hl]
  | cons c s' ih =>
    have hc : bareNameStop c = false := hs c (by simp)
    have hs' : ∀ x ∈ s', bareNameStop x = false := fun x hx => hs x (by simp [hx])
    simp [bareNameRun, hc, ih hs']

/-- Bare-name parsing of an admissible nonempty run. -/
theorem parseBareName_append (s l : List Char) (pos : Nat)
    (hne : s ≠ []) (hs : ∀ c ∈ s, bareNameStop c = false) (hl : HeadStop l) :
    parseBareName pos (s ++ l) = .ok (String.mk s, pos + s.length, l) := by
  simp [parseBareName, bareNameRun_append s l hs hl, hne]

/-- The decimal scanner consumes exactly a digit run up to a non-digit
head, provided scanning does not start at absolute index 0. -/
theorem numberRun_append (ds l : List Char) (start : Nat) (h0 : 0 < start)
    (hds : ∀ c ∈ ds, 48 ≤ c.toNat ∧ c.toNat ≤ 57) (hl : HeadNotDigit l) :
    numberRun start (ds ++ l) = (start + ds.length, ds, l) := by
  induction ds generalizing start with
  | nil =>
    cases l with
    | nil => rfl
    | cons c cs =>
      simp only [HeadNotDigit] at hl
      have h1 : (start == 0) = false := by simp; omega
      have h2 : ('0' ≤ c && c ≤ '9') = false := by
        simp only [Bool.and_eq_false_iff, decide_eq_false_iff_not]
        by_cases hx : 48 ≤ c.toNat
        · right; intro hy; exact hl ⟨hx, hy⟩
        · left; exact hx
      simp [numberRun, h1, h2]
  | cons c ds' ih =>
    have hc := hds c (by simp)
    have hds' : ∀ x ∈ ds', 48 ≤ x.toNat ∧ x.toNat ≤ 57 := fun x hx => hds x (by simp [hx])
    have h2 : ('0' ≤ c && c ≤ '9') = true := by
      simp only [Bool.and_eq_true, decide_eq_true_eq]
      exact ⟨hc.1, hc.2⟩
    simp only [List.cons_append, numberRun, h2, Bool.or_true, if_true, List.append_eq]
    rw [ih (start + 1) (by omega) hds']
    simp; omega

/-- Number parsing of a nonempty digit run away from index 0. -/
theorem parseNumber_append (ds l : List Char) (start : Nat) (h0 : 0 < start)
    (hne : ds ≠ []) (hds : ∀ c ∈ ds, 48 ≤ c.toNat ∧ c.toNat ≤ 57)
    (hl : HeadNotDigit l) :
    parseNumber start (ds ++ l) = .ok (start + ds.length, ds, l) := by
  have hlen : ds.length ≠ 0 := fun h => hne (List.length_eq_zero.mp h)
  have hcond : (start + ds.length == start) = false := by
    simp only [beq_eq_false_iff_ne, ne_eq]
    omega
  simp only [parseNumber, numberRun_append ds l start h0 hds hl, hcond,
    Bool.false_eq_true, if_false]

/-- The digit loop of the integer parser evaluates a decimal digit run. -/
theorem parseDigitsGoAux_digits (ds : List Char) (acc : Nat)
    (hds : ∀ c ∈ ds, 48 ≤ c.toNat ∧ c.toNat ≤ 57) :
    parseDigitsGoAux 10 acc ds =
      some (ds.foldl (fun a c => a * 10 + (c.toNat - '0'.toNat)) acc) := by
  induction ds generalizing acc with
  | nil => rfl
  | cons c ds' ih =>
    have hc := hds c (by simp)
    have hds' : ∀ x ∈ ds', 48 ≤ x.toNat ∧ x.toNat ≤ 57 := fun x hx => hds x (by simp [hx])
    have hdig : ('0' ≤ c && c ≤ '9') = true := by
      simp only [Bool.and_eq_true, decide_eq_true_eq]
      exact ⟨hc.1, hc.2⟩
    have h48 : '0'.toNat = 48 := rfl
    have h1 : c.toNat - '0'.toNat < 10 := by
      have h2 := hc.2
      omega
    have h1b : c.toNat - 48 < 10 := by omega
    have hv : digitValGo 10 c = some (c.toNat - '0'.toNat) := by
      simp [digitValGo, hdig, h1, h1b, h48]
    simp only [parseDigitsGoAux, hv]
    exact ih _ hds'

/-- `ParseInt` base 10 on a nonempty in-range digit run yields its
value. -/
theorem parseIntGo_digits (ds : List Char) (hne : ds ≠ [])
    (hds : ∀ c ∈ ds, 48 ≤ c.toNat ∧ c.toNat ≤ 57)
    (hbound : digitsVal ds ≤ 9223372036854775807) :
    parseIntGo 10 ds = some ((digitsVal ds : Nat) : Int) := by
  cases ds with
  | nil => exact absurd rfl hne
  | cons c cs =>
    have hc := hds c (by simp)
    have hplus : c ≠ '+' := by
      intro h
      subst h
      simp at hc
    have hminus : c ≠ '-' := by
      intro h
      subst h
      simp at hc
    rw [parseIntGo.eq_def]
    split
    · simp_all
    · rename_i heq
      rw [List.cons.injEq] at heq
      exact absurd heq.1 hplus
    · rename_i heq
      rw [List.cons.injEq] at heq
      exact absurd heq.1 hminus
    · rw [parseDigitsGoAux_digits _ _ hds]
      have heq2 : (c :: cs).foldl (fun a x => a * 10 + (x.toNat - '0'.toNat)) 0
          = digitsVal (c :: cs) := rfl
      rw [heq2]
      simp [hbound]

/-- Quoted-name scanning of escape-free content: everything up to the
closing quote is taken literally. -/
theorem parseQuotedNameAux_literal (s : List Char) (cc : Char) (pos : Nat)
    (l : List Char) (f : Nat) (hf : s.length < f)
    (hs : ∀ c ∈ s, c ≠ cc ∧ c ≠ '\\') :
    parseQuotedNameAux f cc pos (s ++ cc :: l) = .ok (s, pos + s.length + 1, l) := by
  induction s generalizing f pos with
  | nil =>
    cases f with
    | zero => omega
    | succ f' => simp [parseQuotedNameAux]
  | cons c s' ih =>
    cases f with
    | zero => omega
    | succ f' =>
      have hc := hs c (by simp)
      have hs' : ∀ x ∈ s', x ≠ cc ∧ x ≠ '\\' := fun x hx => hs x (by simp [hx])
      have hc1 : (c == cc) = false := by simp [hc.1]
      have hc2 : (c == '\\') = false := by simp [hc.2]
      have hf' : s'.length < f' := by
        simp only [List.length_cons] at hf
        omega
      simp only [List.cons_append, parseQuotedNameAux, hc1, hc2,
        Bool.false_eq_true, if_false, List.append_eq]
      rw [ih (pos + 1) f' hf' hs']
      simp
      omega

/-- Quoted-name parsing of escape-free content. -/
theorem parseQuotedName_literal (s : List Char) (cc : Char) (pos : Nat)
    (l : List Char) (hs : ∀ c ∈ s, c ≠ cc ∧ c ≠ '\\') :
    parseQuotedName cc pos (s ++ cc :: l) =
      .ok (String.mk s, pos + s.length + 1, l) := by
  have h := parseQuotedNameAux_literal s cc pos l ((s ++ cc :: l).length + 1)
    (by simp; omega) hs
  unfold parseQuotedName
  rw [h]

/-- A bare-name character is not whitespace (the stop condition contains
the whitespace test as a disjunct). -/
theorem bareStop_not_ws {c : Char} (h : bareNameStop c = false) :
    isWsChar c = false := by
  simp only [bareNameStop, Bool.or_eq_false_iff] at h
  exact h.1.1.1.1

/-- A whitespace/control character terminates a bare name. -/
theorem ws_bareStop {c : Char} (h : isWsChar c = true) :
    bareNameStop c = true := by
  simp [bareNameStop, h]

/-- Whitespace/control characters are outside the decimal-digit code
range. -/
theorem ws_toNat_bounds {c : Char} (h : isWsChar c = true) :
    c.toNat < 48 ∨ 57 < c.toNat := by
  simp only [isWsChar, isSpaceGo, isControlGo, Bool.or_eq_true, beq_iff_eq,
    Bool.and_eq_true, decide_eq_true_eq] at h
  have h32 : (' ').toNat = 32 := rfl
  have h9 : ('\t').toNat = 9 := rfl
  have h10 : ('\n').toNat = 10 := rfl
  have h13 : ('\r').toNat = 13 := rfl
  rcases h with (((((((h | h) | h) | h) | h) | h) | h) | h) | ((h | h) | h) <;>
    first
      | omega
      | (rw [h]; decide)

/-- Appending whitespace in front preserves a stop-character head
condition. -/
theorem headStop_ws_append {w t : List Char} (hw : WsRun w) (ht : HeadStop t) :
    HeadStop (w ++ t) := by
  cases w with
  | nil => exact ht
  | cons c w' =>
    simp only [List.cons_append, HeadStop]
    exact ws_bareStop (hw c (by simp))

/-- Appending whitespace in front preserves a non-digit head
condition. -/
theorem headNotDigit_ws_append {w t : List Char} (hw : WsRun w)
    (ht : HeadNotDigit t) : HeadNotDigit (w ++ t) := by
  cases w with
  | nil => exact ht
  | cons c w' =>
    simp only [List.cons_append, HeadNotDigit]
    intro hc
    rcases ws_toNat_bounds (hw c (by simp)) with h | h <;> omega

/-- Reduction of the compile loop over one rendered `.name` selector. -/
theorem compileLoop_dotName (f pos : Nat) (asts : List ast) (w1 s w t : List Char)
    (hw1 : WsRun w1) (hne : s ≠ []) (hs : ∀ c ∈ s, bareNameStop c = false)
    (hw : WsRun w) (ht1 : HeadNotWs t) (ht2 : HeadStop t) :
    compileLoop (f + 1) pos ('.' :: (w1 ++ (s ++ (w ++ t)))) asts =
      compileLoop f (pos + 1 + w1.length + s.length + w.length) t
        (asts ++ [⟨.NameIndexer, String.mk s, 0⟩]) := by
  obtain ⟨c1, s', rfl⟩ : ∃ c1 s', s = c1 :: s' := by
    cases s with
    | nil => exact absurd rfl hne
    | cons a b => exact ⟨a, b, rfl⟩
  have hc1 := hs c1 (by simp)
  have hc1ws : isWsChar c1 = false := bareStop_not_ws hc1
  have hc1ne : c1 ≠ '(' := by
    intro hx
    rw [hx] at hc1
    exact absurd hc1 (by decide)
  have hc1par : (c1 == '(') = false := by simp [hc1ne]
  have hskip1 : skipSpaces (pos + 1) (w1 ++ (c1 :: s' ++ (w ++ t))) =
      (pos + 1 + w1.length, c1 :: s' ++ (w ++ t)) :=
    skipSpaces_ws_append _ _ _ hw1 (by simp [HeadNotWs, hc1ws])
  have hbare : parseBareName (pos + 1 + w1.length) ((c1 :: s') ++ (w ++ t)) =
      .ok (String.mk (c1 :: s'), pos + 1 + w1.length + (c1 :: s').length, w ++ t) :=
    parseBareName_append _ _ _ hne hs (headStop_ws_append hw ht2)
  have hskip2 : skipSpaces (pos + 1 + w1.length + (c1 :: s').length) (w ++ t) =
      (pos + 1 + w1.length + (c1 :: s').length + w.length, t) :=
    skipSpaces_ws_append _ _ _ hw ht1
  simp only [compileLoop, show isWsChar '.' = false from rfl,
    show ('.' == '[') = false from rfl, show ('.' == '.') = true from rfl,
    Bool.false_eq_true, if_false, if_true, hskip1]
  simp only [List.cons_append, hc1par, Bool.false_eq_true, if_false]
  rw [show (c1 :: (s' ++ (w ++ t))) = ((c1 :: s') ++ (w ++ t)) from rfl, hbare]
  simp only [hskip2]

/-- Reduction of the compile loop over one rendered `['name']` /
`["name"]` selector with escape-free content. -/
theorem compileLoop_brQuoted (f pos : Nat) (asts : List ast) (w1 : List Char)
    (q : Char) (s w2 t : List Char)
    (hw1 : WsRun w1) (hq : q = '\x27' ∨ q = '"')
    (hs : ∀ c ∈ s, c ≠ q ∧ c ≠ '\\') (hw2 : WsRun w2) :
    compileLoop (f + 1) pos ('[' :: (w1 ++ q :: (s ++ q :: (w2 ++ (']' :: t))))) asts =
      compileLoop f (pos + 1 + w1.length + 1 + s.length + 1 + w2.length + 1) t
        (asts ++ [⟨.NameIndexer, String.mk s, 0⟩]) := by
  have hqws : isWsChar q = false := by rcases hq with h | h <;> subst h <;> decide
  have hqd : (('0' ≤ q && q ≤ '9') || q == '-') = false := by
    rcases hq with h | h <;> subst h <;> decide
  have hqq : (q == '\x27' || q == '"') = true := by
    rcases hq with h | h <;> subst h <;> decide
  have hskip1 : skipSpaces (pos + 1) (w1 ++ (q :: (s ++ q :: (w2 ++ (']' :: t))))) =
      (pos + 1 + w1.length, q :: (s ++ q :: (w2 ++ (']' :: t)))) :=
    skipSpaces_ws_append _ _ _ hw1 (by simp [HeadNotWs, hqws])
  have hquoted : parseQuotedName q (pos + 1 + w1.length + 1)
      (s ++ q :: (w2 ++ (']' :: t))) =
      .ok (String.mk s, pos + 1 + w1.length + 1 + s.length + 1, w2 ++ (']' :: t)) :=
    parseQuotedName_literal s q _ _ hs
  have hskip2 : skipSpaces (pos + 1 + w1.length + 1 + s.length + 1)
      (w2 ++ (']' :: t)) =
      (pos + 1 + w1.length + 1 + s.length + 1 + w2.length, ']' :: t) :=
    skipSpaces_ws_append _ _ _ hw2 (by simp only [HeadNotWs]; decide)
  simp only [compileLoop, show isWsChar '[' = false from rfl,
    show ('[' == '[') = true from rfl, Bool.false_eq_true, if_false, if_true,
    hskip1]
  simp only [hqd, hqq, Bool.false_eq_true, if_false, if_true, hquoted, hskip2,
    show (']' == ']') = true from rfl]

/-- Reduction of the compile loop over one rendered `[N]` selector. -/
theorem compileLoop_brNum (f pos : Nat) (asts : List ast) (w1 ds w2 t : List Char)
    (hpos : 0 < pos) (hw1 : WsRun w1) (hne : ds ≠ [])
    (hds : ∀ c ∈ ds, 48 ≤ c.toNat ∧ c.toNat ≤ 57)
    (hbound : digitsVal ds ≤ 9223372036854775807) (hw2 : WsRun w2) :
    compileLoop (f + 1) pos ('[' :: (w1 ++ (ds ++ (w2 ++ (']' :: t))))) asts =
      compileLoop f (pos + 1 + w1.length + ds.length + w2.length + 1) t
        (asts ++ [⟨.NumberIndexer, "", (digitsVal ds : Int)⟩]) := by
  obtain ⟨c1, ds', rfl⟩ : ∃ c1 ds', ds = c1 :: ds' := by
    cases ds with
    | nil => exact absurd rfl hne
    | cons a b => exact ⟨a, b, rfl⟩
  have hc1 := hds c1 (by simp)
  have hc1ws : isWsChar c1 = false := by
    rcases Bool.eq_false_or_eq_true (isWsChar c1) with h | h
    · rcases ws_toNat_bounds h with hb | hb <;> omega
    · exact h
  have hc1d : (('0' ≤ c1 && c1 ≤ '9') || c1 == '-') = true := by
    simp only [Bool.or_eq_true, Bool.and_eq_true, decide_eq_true_eq]
    left
    exact ⟨hc1.1, hc1.2⟩
  have hskip1 : skipSpaces (pos + 1) (w1 ++ (c1 :: ds' ++ (w2 ++ (']' :: t)))) =
      (pos + 1 + w1.length, c1 :: ds' ++ (w2 ++ (']' :: t))) :=
    skipSpaces_ws_append _ _ _ hw1 (by simp [HeadNotWs, hc1ws])
  have hnum : parseNumber (pos + 1 + w1.length) ((c1 :: ds') ++ (w2 ++ (']' :: t))) =
      .ok (pos + 1 + w1.length + (c1 :: ds').length, c1 :: ds', w2 ++ (']' :: t)) :=
    parseNumber_append _ _ _ (by omega) hne hds
      (headNotDigit_ws_append hw2 (by simp only [HeadNotDigit]; decide))
  have hint : parseIntGo 10 (c1 :: ds') = some ((digitsVal (c1 :: ds') : Nat) : Int) :=
    parseIntGo_digits _ hne hds hbound
  have hskip2 : skipSpaces (pos + 1 + w1.length + (c1 :: ds').length)
      (w2 ++ (']' :: t)) =
      (pos + 1 + w1.length + (c1 :: ds').length + w2.length, ']' :: t) :=
    skipSpaces_ws_append _ _ _ hw2 (by simp only [HeadNotWs]; decide)
  simp only [compileLoop, show isWsChar '[' = false from rfl,
    show ('[' == '[') = true from rfl, Bool.false_eq_true, if_false, if_true,
    hskip1]
  simp only [List.cons_append, hc1d, if_true]
  rw [show (c1 :: (ds' ++ (w2 ++ (']' :: t)))) = ((c1 :: ds') ++ (w2 ++ (']' :: t))) from rfl,
    hnum]
  simp only [hint, hskip2, show (']' == ']') = true from rfl, if_true]

/-- Reduction of the compile loop over one rendered `.(name)` function
selector. -/
theorem compileLoop_fnOp (f pos : Nat) (asts : List ast) (w1 w2 s w3 t : List Char)
    (hw1 : WsRun w1) (hw2 : WsRun w2) (hw3 : WsRun w3) (hne : s ≠ [])
    (hs : ∀ c ∈ s, bareNameStop c = false) :
    compileLoop (f + 1) pos ('.' :: (w1 ++ '(' :: (w2 ++ (s ++ (w3 ++ (')' :: t)))))) asts =
      compileLoop f (pos + 1 + w1.length + 1 + w2.length + s.length + w3.length + 1) t
        (asts ++ [⟨.Function, String.mk s, 0⟩]) := by
  obtain ⟨c1, s', rfl⟩ : ∃ c1 s', s = c1 :: s' := by
    cases s with
    | nil => exact absurd rfl hne
    | cons a b => exact ⟨a, b, rfl⟩
  have hc1 := hs c1 (by simp)
  have hc1ws : isWsChar c1 = false := bareStop_not_ws hc1
  have hskip1 : skipSpaces (pos + 1) (w1 ++ ('(' :: (w2 ++ (c1 :: s' ++ (w3 ++ (')' :: t)))))) =
      (pos + 1 + w1.length, '(' :: (w2 ++ (c1 :: s' ++ (w3 ++ (')' :: t))))) :=
    skipSpaces_ws_append _ _ _ hw1 (by simp only [HeadNotWs]; decide)
  have hskip2 : skipSpaces (pos + 1 + w1.length + 1)
      (w2 ++ (c1 :: s' ++ (w3 ++ (')' :: t)))) =
      (pos + 1 + w1.length + 1 + w2.length, c1 :: s' ++ (w3 ++ (')' :: t))) :=
    skipSpaces_ws_append _ _ _ hw2 (by simp [HeadNotWs, hc1ws])
  have hbare : parseBareName (pos + 1 + w1.length + 1 + w2.length)
      ((c1 :: s') ++ (w3 ++ (')' :: t))) =
      .ok (String.mk (c1 :: s'),
        pos + 1 + w1.length + 1 + w2.length + (c1 :: s').length, w3 ++ (')' :: t)) :=
    parseBareName_append _ _ _ hne hs
      (headStop_ws_append hw3 (by simp only [HeadStop]; decide))
  have hskip3 : skipSpaces (pos + 1 + w1.length + 1 + w2.length + (c1 :: s').length)
      (w3 ++ (')' :: t)) =
      (pos + 1 + w1.length + 1 + w2.length + (c1 :: s').length + w3.length, ')' :: t) :=
    skipSpaces_ws_append _ _ _ hw3 (by simp only [HeadNotWs]; decide)
  simp only [compileLoop, show isWsChar '.' = false from rfl,
    show ('.' == '[') = false from rfl, show ('.' == '.') = true from rfl,
    Bool.false_eq_true, if_false, if_true, hskip1]
  simp only [show ('(' == '(') = true from rfl, if_true, hskip2]
  rw [hbare]
  simp only [hskip3, show (')' == ')') = true from rfl, if_true]

/-- One top-level loop iteration skips a nonempty whitespace run. -/
theorem compileLoop_ws_step (f pos : Nat) (asts : List ast) (c : Char)
    (w' l : List Char) (hw : WsRun (c :: w')) (hl : HeadNotWs l) :
    compileLoop (f + 1) pos ((c :: w') ++ l) asts =
      compileLoop f (pos + 1 + w'.length) l asts := by
  have hc : isWsChar c = true := hw c (by simp)
  have hw' : WsRun w' := fun x hx => hw x (by simp [hx])
  have hskip : skipSpaces (pos + 1) (w' ++ l) = (pos + 1 + w'.length, l) :=
    skipSpaces_ws_append _ _ _ hw' hl
  simp only [List.cons_append, List.append_eq, compileLoop, hc, if_true, hskip]

/-- A compile-loop result over a suffix with enough fuel is preserved
under prepending a whitespace run (with matching fuel margin). -/
theorem compileLoop_ws_prefix_eq (w l : List Char) (asts : List ast)
    (R : CompileOutcome) (hw : WsRun w) (hl : HeadNotWs l)
    (h : ∀ g pos, l.length < g → 0 < pos → compileLoop g pos l asts = R) :
    ∀ f pos, (w ++ l).length < f → 0 < pos → compileLoop f pos (w ++ l) asts = R := by
  intro f pos hf hpos
  cases w with
  | nil => exact h f pos (by simpa using hf) hpos
  | cons c w' =>
    cases f with
    | zero => simp at hf
    | succ f' =>
      rw [compileLoop_ws_step f' pos asts c w' l hw hl]
      exact h f' _ (by simp at hf; omega) (by omega)

/-- A rendered selector sequence is empty or starts with `.` or `[`. -/
theorem renderSels_head (sels : List (RSel × List Char)) :
    HeadNotWs (renderSels sels) ∧ HeadStop (renderSels sels) := by
  cases sels with
  | nil => exact ⟨trivial, trivial⟩
  | cons p rest =>
    obtain ⟨r, w⟩ := p
    cases r <;>
      simp only [renderSels, renderSel, List.cons_append, HeadNotWs, HeadStop] <;>
      exact ⟨by decide, by decide⟩

/-- Compiling a rendered well-formed selector sequence (from any position
past the root, with enough fuel) appends exactly the denoted steps. -/
theorem compileLoop_renderSels (sels : List (RSel × List Char)) :
    ∀ (f pos : Nat) (asts : List ast), 0 < pos →
      (renderSels sels).length < f →
      (∀ p ∈ sels, WFSel p.1 ∧ WsRun p.2) →
      compileLoop f pos (renderSels sels) asts =
        .ok (asts ++ sels.map (fun p => denoteSel p.1)) := by
  induction sels with
  | nil =>
    intro f pos asts hpos hf hwf
    cases f with
    | zero => simp at hf
    | succ f' => simp [renderSels, compileLoop]
  | cons p rest ih =>
    obtain ⟨r, w⟩ := p
    intro f pos asts hpos hf hwf
    have hwfr : WFSel r := (hwf (r, w) (by simp)).1
    have hww : WsRun w := (hwf (r, w) (by simp)).2
    have hwf2 : ∀ p ∈ rest, WFSel p.1 ∧ WsRun p.2 := fun p hp => hwf p (by simp [hp])
    have hhead := renderSels_head rest
    cases f with
    | zero => simp at hf
    | succ f' =>
      cases r with
      | dotName w1 s =>
        obtain ⟨hw1, hne, hs⟩ := hwfr
        have hshape : renderSels ((RSel.dotName w1 s, w) :: rest) =
            '.' :: (w1 ++ (s ++ (w ++ renderSels rest))) := by
          simp [renderSels, renderSel]
        rw [hshape] at hf ⊢
        rw [compileLoop_dotName f' pos asts w1 s w (renderSels rest)
          hw1 hne hs hww hhead.1 hhead.2]
        rw [ih f' _ _ (by omega)
          (by simp only [List.length_cons, List.length_append] at hf; omega) hwf2]
        simp [denoteSel]
      | brQuoted w1 q s w2 =>
        obtain ⟨hw1, hw2, hq, hs⟩ := hwfr
        have hshape : renderSels ((RSel.brQuoted w1 q s w2, w) :: rest) =
            '[' :: (w1 ++ q :: (s ++ q :: (w2 ++ (']' :: (w ++ renderSels rest))))) := by
          simp [renderSels, renderSel]
        rw [hshape] at hf ⊢
        rw [compileLoop_brQuoted f' pos asts w1 q s w2 (w ++ renderSels rest)
          hw1 hq hs hw2]
        have hR : CompileOutcome.ok (asts ++ List.map (fun p => denoteSel p.1)
            ((RSel.brQuoted w1 q s w2, w) :: rest)) =
            .ok ((asts ++ [⟨.NameIndexer, String.mk s, 0⟩]) ++
              rest.map (fun p => denoteSel p.1)) := by
          simp [denoteSel]
        rw [hR]
        exact compileLoop_ws_prefix_eq w (renderSels rest) _ _ hww hhead.1
          (fun g pos2 hg hpos2 => ih g pos2 _ hpos2 hg hwf2)
          f' _ (by simp only [List.length_cons, List.length_append] at hf ⊢; omega)
          (by omega)
      | brNum w1 ds w2 =>
        obtain ⟨hw1, hw2, hne, hds, hbound⟩ := hwfr
        have hshape : renderSels ((RSel.brNum w1 ds w2, w) :: rest) =
            '[' :: (w1 ++ (ds ++ (w2 ++ (']' :: (w ++ renderSels rest))))) := by
          simp [renderSels, renderSel]
        rw [hshape] at hf ⊢
        rw [compileLoop_brNum f' pos asts w1 ds w2 (w ++ renderSels rest)
          hpos hw1 hne hds hbound hw2]
        have hR : CompileOutcome.ok (asts ++ List.map (fun p => denoteSel p.1)
            ((RSel.brNum w1 ds w2, w) :: rest)) =
            .ok ((asts ++ [⟨.NumberIndexer, "", (digitsVal ds : Int)⟩]) ++
              rest.map (fun p => denoteSel p.1)) := by
          simp [denoteSel]
        rw [hR]
        exact compileLoop_ws_prefix_eq w (renderSels rest) _ _ hww hhead.1
          (fun g pos2 hg hpos2 => ih g pos2 _ hpos2 hg hwf2)
          f' _ (by simp only [List.length_cons, List.length_append] at hf ⊢; omega)
          (by omega)
      | fnOp w1 w2 s w3 =>
        obtain ⟨hw1, hw2, hw3, hne, hs⟩ := hwfr
        have hshape : renderSels ((RSel.fnOp w1 w2 s w3, w) :: rest) =
            '.' :: (w1 ++ '(' :: (w2 ++ (s ++ (w3 ++ (')' :: (w ++ renderSels rest)))))) := by
          simp [renderSels, renderSel]
        rw [hshape] at hf ⊢
        rw [compileLoop_fnOp f' pos asts w1 w2 s w3 (w ++ renderSels rest)
          hw1 hw2 hw3 hne hs]
        have hR : CompileOutcome.ok (asts ++ List.map (fun p => denoteSel p.1)
            ((RSel.fnOp w1 w2 s w3, w) :: rest)) =
            .ok ((asts ++ [⟨.Function, String.mk s, 0⟩]) ++
              rest.map (fun p => denoteSel p.1)) := by
          simp [denoteSel]
        rw [hR]
        exact compileLoop_ws_prefix_eq w (renderSels rest) _ _ hww hhead.1
          (fun g pos2 hg hpos2 => ih g pos2 _ hpos2 hg hwf2)
          f' _ (by simp only [List.length_cons, List.length_append] at hf ⊢; omega)
          (by omega)

/-- C9 (amended): whitespace/control runs inserted after the root marker,
around `.`, inside `[...]` and `(...)`, and between selectors never change
the compiled steps: every rendering of a well-formed selector description,
whatever whitespace is chosen at each slot, compiles to exactly the
denoted step sequence — so any two such renderings compile to identical
steps and hence identical query results.  (Whitespace before `$` is
excluded: the root marker must be the first character — see the
counterexample.) -/
theorem C9_amended_ws_insensitive_after_root (w0 : List Char)
    (sels : List (RSel × List Char)) (hw0 : WsRun w0)
    (hwf : ∀ p ∈ sels, WFSel p.1 ∧ WsRun p.2) :
    Compile (String.mk (renderPath w0 sels)) =
      .ok (sels.map (fun p => denoteSel p.1)) := by
  simp only [Compile, renderPath, compileCore]
  simp only [show (('$' : Char) != '$') = false from rfl, Bool.false_eq_true,
    if_false]
  exact compileLoop_ws_prefix_eq w0 (renderSels sels) []
    (.ok (sels.map (fun p => denoteSel p.1))) hw0 (renderSels_head sels).1
    (fun g pos hg hpos => by
      rw [compileLoop_renderSels sels g pos [] hpos hg hwf]
      simp)
    ((w0 ++ renderSels sels).length + 1) 1 (by omega) (by omega)

/-- C9 counterexample: "around `$`" fails for whitespace inserted before
the root marker — `$` compiles to the empty step sequence while `" $"`
is a compile failure (missing root marker), not an identical
CompiledPath. -/
theorem C9_counterexample_leading_whitespace :
    Compile "$" = .ok [] ∧ Compile " $" = .err .rootMissing :=
  ⟨rfl, rfl⟩

/-- Witness for C9 (amended): the spec's example rendering pair — the
heavily spaced path compiles to the same three steps as the dense one. -/
theorem C9_witness :
    Compile "$ . test [ 1 ] . abc " =
      .ok [⟨.NameIndexer, "test", 0⟩, ⟨.NumberIndexer, "", 1⟩,
        ⟨.NameIndexer, "abc", 0⟩] ∧
    Compile "$ . test [ 1 ] . abc " = Compile "$.test[1].abc" := by
  have h1 := C9_amended_ws_insensitive_after_root [' ']
    [(.dotName [' '] ['t', 'e', 's', 't'], [' ']),
     (.brNum [' '] ['1'] [' '], [' ']),
     (.dotName [' '] ['a', 'b', 'c'], [' '])]
    (by decide)
    (by
      intro p hp
      fin_cases hp
      · exact ⟨⟨by decide, by decide, by decide⟩, by decide⟩
      · exact ⟨⟨by decide, by decide, by decide, by decide, by decide⟩, by decide⟩
      · exact ⟨⟨by decide, by decide, by decide⟩, by decide⟩)
  have h2 := C9_amended_ws_insensitive_after_root []
    [(.dotName [] ['t', 'e', 's', 't'], []),
     (.brNum [] ['1'] [], []),
     (.dotName [] ['a', 'b', 'c'], [])]
    (by decide)
    (by
      intro p hp
      fin_cases hp
      · exact ⟨⟨by decide, by decide, by decide⟩, by decide⟩
      · exact ⟨⟨by decide, by decide, by decide, by decide, by decide⟩, by decide⟩
      · exact ⟨⟨by decide, by decide, by decide⟩, by decide⟩)
  have e1 : "$ . test [ 1 ] . abc " = String.mk (renderPath [' ']
    [(.dotName [' '] ['t', 'e', 's', 't'], [' ']),
     (.brNum [' '] ['1'] [' '], [' ']),
     (.dotName [' '] ['a', 'b', 'c'], [' '])]) := rfl
  have e2 : "$.test[1].abc" = String.mk (renderPath []
    [(.dotName [] ['t', 'e', 's', 't'], []),
     (.brNum [] ['1'] [], []),
     (.dotName [] ['a', 'b', 'c'], [])]) := rfl
  rw [e1, e2, h1, h2]
  exact ⟨rfl, rfl⟩
